import Mathlib

/-!
Shallow embedding of the mf-statement transaction pipeline:
the record model (`internal/domain/transaction.go`), the streaming
filter-parser (`internal/adapters/out/parser/filtered_csv_parser.go`),
the period/date-range predicates, the aggregation and sorting steps of
the services (`internal/usecase/*.go`, `internal/service/statement_generator.go`),
and the error taxonomy (`internal/domain/errors.go`).

The byte stream is modelled at row granularity: a `CSVInput` is the
header row plus the list of already-split data rows (the `encoding/csv`
framing layer — quoting, escaping — is outside the embedding).
Go `context` cancellation is modelled by `cancelAt : Option Nat`: the
iteration index from which the context's done channel is closed.
Go `int64` arithmetic is modelled on `Int` with explicit two's-complement
wraparound (`wrap64`) where the code adds amounts.
-/

namespace MfStatement

/-- A calendar date at day precision; parsed transaction dates are
midnight UTC, so Go `time.Time` comparison coincides with lexicographic
comparison of (year, month, day). -/
structure Date where
  year : Int
  month : Int
  day : Int
deriving DecidableEq, Repr

/-- Lexicographic key of a date; `time.Time.After`/`Before`/`Equal` on
midnight-UTC values agree with the `<`/`=` of this key. -/
def Date.key (d : Date) : Int ×ₗ (Int ×ₗ Int) :=
  toLex (d.year, toLex (d.month, d.day))

/-- `a.After b` of Go `time.Time` for day-precision dates. -/
def Date.after (a b : Date) : Bool :=
  decide (b.key < a.key)

/-- `a.Before b` of Go `time.Time` for day-precision dates. -/
def Date.before (a b : Date) : Bool :=
  decide (a.key < b.key)

/-- `domain.Transaction` (internal/domain/transaction.go). -/
structure Transaction where
  Date : Date
  Amount : Int
  Content : String
deriving DecidableEq, Repr

/-- `Transaction.IsIncome`: `t.Amount > 0`. -/
def Transaction.IsIncome (t : Transaction) : Bool :=
  decide (0 < t.Amount)

/-- `Transaction.IsExpense`: `t.Amount < 0`. -/
def Transaction.IsExpense (t : Transaction) : Bool :=
  decide (t.Amount < 0)

/-- The characters Go `unicode.IsSpace` accepts within Latin-1; the CSV
fields of this repository are ASCII, where this coincides with
`strings.TrimSpace`'s notion of whitespace. -/
def isSpaceGo (c : Char) : Bool :=
  c = ' ' || c = '\t' || c = '\n' || c = '\x0b' || c = '\x0c' || c = '\r' ||
    c = '\x85' || c = '\xa0'

/-- Drop trailing whitespace characters (structural form of the
right-trimming half of `strings.TrimSpace`). -/
def trimRight : List Char → List Char
  | [] => []
  | c :: rest =>
    match trimRight rest with
    | [] => if isSpaceGo c then [] else [c]
    | x :: xs => c :: x :: xs

/-- `strings.TrimSpace` on the character list. -/
def trimSpaceList (l : List Char) : List Char :=
  trimRight (l.dropWhile isSpaceGo)

/-- `strings.TrimSpace`. -/
def trimSpace (s : String) : String :=
  ⟨trimSpaceList s.data⟩

/-- `strings.TrimPrefix(s, "﻿")`: strip one leading byte-order mark. -/
def trimPrefixBOM (s : String) : String :=
  match s.data with
  | [] => s
  | c :: rest => if c = '﻿' then ⟨rest⟩ else s

/-- `strings.EqualFold` restricted to ASCII case folding, which agrees
with Unicode simple folding on the header words compared here. -/
def equalFold (a b : String) : Bool :=
  a.data.map Char.toLower == b.data.map Char.toLower

/-- `streamingEq` / `eq` of the parsers: case- and surrounding-whitespace-
insensitive string comparison. -/
def streamingEq (a b : String) : Bool :=
  equalFold (trimSpace a) (trimSpace b)

/-- Decimal value of a digit list (`atoi` on already-checked digits). -/
def digitsToNat (l : List Char) : Nat :=
  l.foldl (fun acc c => acc * 10 + (c.toNat - '0'.toNat)) 0

/-- `strconv.ParseInt(s, 10, 64)`: optional sign, decimal digits, and the
signed-64-bit range check; out-of-range input is an error, not a wrap. -/
def parseInt64 (s : String) : Option Int :=
  match s.data with
  | [] => none
  | c :: rest =>
    let signed : Bool × List Char :=
      if c = '-' then (true, rest)
      else if c = '+' then (false, rest)
      else (false, c :: rest)
    match signed with
    | (neg, digits) =>
      if digits.isEmpty then none
      else if digits.all Char.isDigit then
        let v : Int := if neg then -(digitsToNat digits : Int) else (digitsToNat digits : Int)
        if -(2 ^ 63) ≤ v ∧ v ≤ 2 ^ 63 - 1 then some v else none
      else none

/-- Gregorian leap-year rule (`time.isLeap`). -/
def isLeapYear (y : Int) : Bool :=
  y % 4 == 0 && (y % 100 != 0 || y % 400 == 0)

/-- `time.daysIn`: number of days of a month. -/
def daysIn (month year : Int) : Int :=
  if month == 2 then (if isLeapYear year then 29 else 28)
  else if month == 4 || month == 6 || month == 9 || month == 11 then 30
  else 31

/-- `time.Parse(domain.CSVDateLayout, s)` with layout `2006/01/02`:
exactly four year digits, a slash, two month digits, a slash, two day
digits, nothing else; month and day must be in calendar range. -/
def parseDate (s : String) : Option Date :=
  match s.data with
  | [y1, y2, y3, y4, s1, m1, m2, s2, d1, d2] =>
    if ([y1, y2, y3, y4, m1, m2, d1, d2].all Char.isDigit) && s1 = '/' && s2 = '/' then
      let y : Int := (digitsToNat [y1, y2, y3, y4] : Int)
      let m : Int := (digitsToNat [m1, m2] : Int)
      let d : Int := (digitsToNat [d1, d2] : Int)
      if 1 ≤ m ∧ m ≤ 12 ∧ 1 ≤ d ∧ d ≤ daysIn m y then some ⟨y, m, d⟩ else none
    else none
  | _ => none

/-- `domain.NewTransaction`: rejects empty and whitespace-only content,
stores the trimmed content. -/
def NewTransaction (date : Date) (amount : Int) (content : String) :
    Except String Transaction :=
  if content = "" then .error "content cannot be empty"
  else
    let c := trimSpace content
    if c = "" then .error "content cannot be empty after trimming"
    else .ok ⟨date, amount, c⟩

/-- Failure reasons of `streamingParseRecord` (the row decoder); each
constructor corresponds to one `return` of an error in the Go function. -/
inductive RecordError where
  | invalidColumnCount (got : Nat)
  | emptyColumn
  | invalidDate (s : String)
  | invalidAmount (s : String)
  | constructorFailed (msg : String)
deriving DecidableEq, Repr

/-- Failure reasons of `ParseWithFilter`; `rowError` carries the
1-indexed line number (the header is line 1, data starts at line 2). -/
inductive ParseError where
  | headerTooFewColumns (got : Nat)
  | unexpectedHeader (got : List String)
  | cancelled
  | rowError (rowIndex : Nat) (e : RecordError)
deriving DecidableEq, Repr

/-- `streamingParseRecord`: decode one raw row into a `Transaction`. -/
def streamingParseRecord (record : List String) : Except RecordError Transaction :=
  match record with
  | [rd, ra, rc] =>
    let dateStr := trimSpace rd
    let amountStr := trimSpace ra
    let content := trimSpace rc
    if dateStr = "" ∨ amountStr = "" ∨ content = "" then .error .emptyColumn
    else
      match parseDate dateStr with
      | none => .error (.invalidDate dateStr)
      | some date =>
        match parseInt64 amountStr with
        | none => .error (.invalidAmount amountStr)
        | some amount =>
          match NewTransaction date amount content with
          | .error msg => .error (.constructorFailed msg)
          | .ok t => .ok t
  | _ => .error (.invalidColumnCount record.length)

/-- `streamingValidateHeader`: at least three fields are required and the
first three must equal `date`, `amount`, `content` up to case,
surrounding whitespace and a leading byte-order mark on the first. -/
def streamingValidateHeader (header : List String) : Except ParseError Unit :=
  match header with
  | a :: b :: c :: rest =>
    let a := trimPrefixBOM a
    if streamingEq a "date" && streamingEq b "amount" && streamingEq c "content"
    then .ok ()
    else .error (.unexpectedHeader (a :: b :: c :: rest))
  | _ => .error (.headerTooFewColumns header.length)

/-- A CSV byte stream at row granularity: the header row and the data rows. -/
structure CSVInput where
  header : List String
  rows : List (List String)
deriving DecidableEq, Repr

/-- Whether the Go context is observed cancelled at iteration `i`. -/
def isCancelled (cancelAt : Option Nat) (i : Nat) : Bool :=
  match cancelAt with
  | none => false
  | some k => decide (k ≤ i)

/-- The row loop of `ParseWithFilter`: poll cancellation, read a row,
decode it, append it to the accumulator when the predicate holds.
`i` is the 0-based iteration; the reported line number is `i + 2`. -/
def parseWithFilterLoop (cancelAt : Option Nat) (filterFunc : Transaction → Bool) :
    List (List String) → Nat → List Transaction → Except ParseError (List Transaction)
  | rows, i, acc =>
    if isCancelled cancelAt i then .error .cancelled
    else
      match rows with
      | [] => .ok acc
      | record :: rest =>
        match streamingParseRecord record with
        | .error e => .error (.rowError (i + 2) e)
        | .ok t =>
          parseWithFilterLoop cancelAt filterFunc rest (i + 1)
            (if filterFunc t then acc ++ [t] else acc)

/-- `FilteredCSVParser.ParseWithFilter`: validate the header, then stream
the rows through `parseWithFilterLoop`. -/
def ParseWithFilter (cancelAt : Option Nat) (input : CSVInput)
    (filterFunc : Transaction → Bool) : Except ParseError (List Transaction) :=
  match streamingValidateHeader input.header with
  | .error e => .error e
  | .ok _ => parseWithFilterLoop cancelAt filterFunc input.rows 0 []

/-- The period predicate of `ParseWithPeriodFilter`. -/
def periodFilter (year month : Int) (t : Transaction) : Bool :=
  t.Date.year == year && t.Date.month == month

/-- `FilteredCSVParser.ParseWithPeriodFilter`. -/
def ParseWithPeriodFilter (cancelAt : Option Nat) (input : CSVInput)
    (year month : Int) : Except ParseError (List Transaction) :=
  ParseWithFilter cancelAt input (periodFilter year month)

/-- Modelled from the spec: `util.Between` (package `internal/util` is not
among the sources; only its tests and callers are). The spec defines the
date-range predicate as `record.date >= start AND record.date <= end`,
inclusive on both ends, at day granularity. -/
def Between (d startDate endDate : Date) : Bool :=
  decide (startDate.key ≤ d.key) && decide (d.key ≤ endDate.key)

/-- `FilteredCSVParser.ParseWithDateRangeFilter`. -/
def ParseWithDateRangeFilter (cancelAt : Option Nat) (input : CSVInput)
    (startDate endDate : Date) : Except ParseError (List Transaction) :=
  ParseWithFilter cancelAt input (fun t => Between t.Date startDate endDate)

/-- The date-range predicate written out in
`TransactionService.GetTransactionsByDateRange`:
`(date.Equal(start) || date.After(start)) && (date.Equal(end) || date.Before(end))`. -/
def dateRangeKeep (t : Transaction) (startDate endDate : Date) : Bool :=
  (decide (t.Date = startDate) || Date.after t.Date startDate) &&
    (decide (t.Date = endDate) || Date.before t.Date endDate)

/-- Reduce an integer into the signed 64-bit range by two's-complement
wraparound: the semantics of Go `int64` addition. -/
def wrap64 (x : Int) : Int :=
  (x + 2 ^ 63) % 2 ^ 64 - 2 ^ 63

/-- The loop of `CalculateTotalsOptimized` / `CalculateTotals`: income
accumulates amounts with `IsIncome`, expenditure those with `IsExpense`;
additions are Go `int64` additions. -/
def calcTotalsLoop : List Transaction → Int → Int → Int × Int
  | [], totalIncome, totalExpenditure => (totalIncome, totalExpenditure)
  | t :: ts, totalIncome, totalExpenditure =>
    if t.IsIncome then calcTotalsLoop ts (wrap64 (totalIncome + t.Amount)) totalExpenditure
    else if t.IsExpense then calcTotalsLoop ts totalIncome (wrap64 (totalExpenditure + t.Amount))
    else calcTotalsLoop ts totalIncome totalExpenditure

/-- `OptimizedTransactionService.CalculateTotalsOptimized` (identical to
`TransactionServiceImpl.CalculateTotals`). -/
def CalculateTotalsOptimized (transactions : List Transaction) : Int × Int :=
  calcTotalsLoop transactions 0 0

/-- The loop of `service.filterForMonth`: keep the transactions of the
requested year and month, adding positive amounts to income and all
other (non-positive) amounts to expenditure. -/
def filterForMonthLoop (year month : Int) :
    List Transaction → Int → Int → List Transaction × Int × Int
  | [], totalIncome, totalExpense => ([], totalIncome, totalExpense)
  | t :: ts, totalIncome, totalExpense =>
    if t.Date.year = year ∧ t.Date.month = month then
      if 0 < t.Amount then
        let r := filterForMonthLoop year month ts (wrap64 (totalIncome + t.Amount)) totalExpense
        (t :: r.1, r.2)
      else
        let r := filterForMonthLoop year month ts totalIncome (wrap64 (totalExpense + t.Amount))
        (t :: r.1, r.2)
    else filterForMonthLoop year month ts totalIncome totalExpense

/-- `service.filterForMonth` (internal/service/statement_generator.go). -/
def filterForMonth (transactions : List Transaction) (year month : Int) :
    List Transaction × Int × Int :=
  filterForMonthLoop year month transactions 0 0

/-- One insertion step of the stable newest-first sort: a transaction is
moved past exactly those earlier in the stream with a strictly later
date, so equal dates keep stream order. -/
def insertDesc (t : Transaction) : List Transaction → List Transaction
  | [] => [t]
  | u :: us =>
    if Date.after u.Date t.Date then u :: insertDesc t us else t :: u :: us

/-- `sort.SliceStable(transactions, ...Date.After...)`: the stable sort
by date descending applied by the services, rendered as stable insertion
sort (a stable sort's output is determined by the comparator alone). -/
def sortTransactionsDesc : List Transaction → List Transaction
  | [] => []
  | t :: ts => insertDesc t (sortTransactionsDesc ts)

/-- `domain.ErrorType` (internal/domain/errors.go). -/
inductive ErrorType where
  | validation
  | notFound
  | parse
  | io
  | internal
deriving DecidableEq, Repr

/-- The `Cause` field of a `domain.DomainError` as produced by the
services: absent, a wrapped streaming-parse failure, or a wrapped
source-open failure message. -/
inductive ErrorCause where
  | noCause
  | parseCause (e : ParseError)
  | ioCause (msg : String)
deriving DecidableEq, Repr

/-- `domain.DomainError`; the Go field `Type` is spelled `Type'` here
because `Type` is reserved in Lean. -/
structure DomainError where
  Type' : ErrorType
  Message : String
  Cause : ErrorCause
deriving DecidableEq, Repr

/-- `domain.NewValidationError` (details map omitted). -/
def NewValidationError (message : String) : DomainError :=
  ⟨.validation, message, .noCause⟩

/-- `domain.NewParseError`. -/
def NewParseError (message : String) (cause : ParseError) : DomainError :=
  ⟨.parse, message, .parseCause cause⟩

/-- `domain.NewIOError`. -/
def NewIOError (message : String) (cause : String) : DomainError :=
  ⟨.io, message, .ioCause cause⟩

/-- `PeriodValidator.ValidatePeriod` (internal/usecase/validator.go). -/
def ValidatePeriod (year month : Int) : Except DomainError Unit :=
  if month < 1 ∨ month > 12 then .error (NewValidationError "invalid month")
  else .ok ()

/-- `OptimizedTransactionService.GetTransactionsByPeriodOptimized`:
validate the period, open the source (its outcome is the `openResult`
argument), stream-parse with the period filter, sort newest first.
Open failures become IO-kind errors; every parse failure becomes a
Parse-kind error with message `failed to parse CSV`. -/
def GetTransactionsByPeriodOptimized (cancelAt : Option Nat)
    (openResult : Except String CSVInput) (year month : Int) :
    Except DomainError (List Transaction) :=
  match ValidatePeriod year month with
  | .error e => .error e
  | .ok _ =>
    match openResult with
    | .error e => .error (NewIOError "failed to open CSV source" e)
    | .ok input =>
      match ParseWithPeriodFilter cancelAt input year month with
      | .error e => .error (NewParseError "failed to parse CSV" e)
      | .ok transactions => .ok (sortTransactionsDesc transactions)

/-- Decode a list of raw rows in order, stopping at the first failure:
the reference semantics of the row-decoding pass. -/
def decodeRows : List (List String) → Except RecordError (List Transaction)
  | [] => .ok []
  | r :: rs =>
    match streamingParseRecord r with
    | .error e => .error e
    | .ok t =>
      match decodeRows rs with
      | .error e => .error e
      | .ok ts => .ok (t :: ts)

instance {ε α : Type} [DecidableEq ε] [DecidableEq α] : DecidableEq (Except ε α)
  | .error e, .error f => if h : e = f then .isTrue (by rw [h]) else .isFalse (by simp [h])
  | .error _, .ok _ => .isFalse (by simp)
  | .ok _, .error _ => .isFalse (by simp)
  | .ok a, .ok b => if h : a = b then .isTrue (by rw [h]) else .isFalse (by simp [h])

/-- Whether `streamingParseRecord` decodes the row successfully. -/
def rowDecodes (r : List String) : Bool :=
  match streamingParseRecord r with
  | .ok _ => true
  | .error _ => false

/-- The exact (unbounded) sum of the strictly positive amounts. -/
def sumPos (ts : List Transaction) : Int :=
  ((ts.filter fun t => decide (0 < t.Amount)).map Transaction.Amount).sum

/-- The exact (unbounded) sum of the strictly negative amounts. -/
def sumNeg (ts : List Transaction) : Int :=
  ((ts.filter fun t => decide (t.Amount < 0)).map Transaction.Amount).sum

theorem rowDecodes_iff (r : List String) :
    rowDecodes r = true ↔ ∃ t, streamingParseRecord r = .ok t := by
  unfold rowDecodes
  cases h : streamingParseRecord r <;> simp

theorem parseLoop_ok (f : Transaction → Bool) :
    ∀ (rows : List (List String)) (ts acc : List Transaction) (i : Nat),
      decodeRows rows = .ok ts →
      parseWithFilterLoop none f rows i acc = .ok (acc ++ ts.filter f) := by
  intro rows
  induction rows with
  | nil =>
    intro ts acc i h
    simp [decodeRows] at h
    subst h
    simp [parseWithFilterLoop, isCancelled]
  | cons r rest ih =>
    intro ts acc i h
    unfold decodeRows at h
    cases hr : streamingParseRecord r with
    | error e => rw [hr] at h; exact absurd h (by simp)
    | ok t =>
      rw [hr] at h
      cases hrest : decodeRows rest with
      | error e => rw [hrest] at h; exact absurd h (by simp)
      | ok ts' =>
        rw [hrest] at h
        simp only [Except.ok.injEq] at h
        subst h
        rw [parseWithFilterLoop]
        simp only [isCancelled, Bool.false_eq_true, if_false, hr]
        rw [ih ts' _ (i + 1) hrest, List.filter_cons]
        by_cases hf : f t <;> simp [hf]

theorem parseLoop_err (f : Transaction → Bool) :
    ∀ (pre : List (List String)) (bad : List String) (post : List (List String))
      (e : RecordError) (acc : List Transaction) (i : Nat),
      (∀ r ∈ pre, rowDecodes r = true) →
      streamingParseRecord bad = .error e →
      parseWithFilterLoop none f (pre ++ bad :: post) i acc
        = .error (.rowError (i + pre.length + 2) e) := by
  intro pre
  induction pre with
  | nil =>
    intro bad post e acc i _ hbad
    rw [List.nil_append, parseWithFilterLoop]
    simp [isCancelled, hbad]
  | cons r pre' ih =>
    intro bad post e acc i hpre hbad
    have hr := (rowDecodes_iff r).mp (hpre r (by simp))
    obtain ⟨t, ht⟩ := hr
    rw [List.cons_append, parseWithFilterLoop]
    simp only [isCancelled, Bool.false_eq_true, if_false, ht]
    rw [ih bad post e _ (i + 1) (fun r hr => hpre r (by simp [hr])) hbad]
    congr 2
    simp
    omega

theorem parseLoop_cancel (f : Transaction → Bool) (k : Nat) :
    ∀ (rows : List (List String)) (acc : List Transaction) (i : Nat),
      (∀ r ∈ rows, rowDecodes r = true) →
      k ≤ i + rows.length →
      parseWithFilterLoop (some k) f rows i acc = .error .cancelled := by
  intro rows
  induction rows with
  | nil =>
    intro acc i _ hk
    rw [parseWithFilterLoop]
    simp only [List.length_nil, Nat.add_zero] at hk
    simp [isCancelled, hk]
  | cons r rest ih =>
    intro acc i hdec hk
    rw [parseWithFilterLoop]
    by_cases hki : k ≤ i
    · simp [isCancelled, hki]
    · simp only [isCancelled, decide_eq_true_eq, hki, if_false]
      obtain ⟨t, ht⟩ := (rowDecodes_iff r).mp (hdec r (by simp))
      rw [ht]
      exact ih _ (i + 1) (fun r hr => hdec r (by simp [hr])) (by simp at hk ⊢; omega)

theorem mem_parseLoop (cancelAt : Option Nat) (f : Transaction → Bool) :
    ∀ (rows : List (List String)) (acc ts : List Transaction) (i : Nat),
      parseWithFilterLoop cancelAt f rows i acc = .ok ts →
      ∀ t ∈ ts, t ∈ acc ∨ ∃ r ∈ rows, streamingParseRecord r = .ok t := by
  intro rows
  induction rows with
  | nil =>
    intro acc ts i h t hts
    rw [parseWithFilterLoop] at h
    by_cases hc : isCancelled cancelAt i = true
    · simp [hc] at h
    · simp only [Bool.not_eq_true] at hc
      simp only [hc, Bool.false_eq_true, if_false, Except.ok.injEq] at h
      subst h
      exact Or.inl hts
  | cons r rest ih =>
    intro acc ts i h t hts
    rw [parseWithFilterLoop] at h
    by_cases hc : isCancelled cancelAt i = true
    · simp [hc] at h
    · simp only [Bool.not_eq_true] at hc
      simp only [hc, Bool.false_eq_true, if_false] at h
      cases hr : streamingParseRecord r with
      | error e => rw [hr] at h; exact absurd h (by simp)
      | ok u =>
        rw [hr] at h
        rcases ih _ ts (i + 1) h t hts with hmem | ⟨r', hr', hok⟩
        · by_cases hf : f u
          · simp only [hf, if_true, List.mem_append, List.mem_singleton] at hmem
            rcases hmem with hacc | rfl
            · exact Or.inl hacc
            · exact Or.inr ⟨r, by simp, hr⟩
          · simp only [hf, Bool.false_eq_true, if_false] at hmem
            exact Or.inl hmem
        · exact Or.inr ⟨r', by simp [hr'], hok⟩

/-- C1: on a valid input stream (valid header, every row decodable) with
no cancellation, `ParseWithFilter` returns exactly the decoded records
satisfying the predicate, in file order: the output is the filter of the
decoded record sequence. -/
theorem c1_streaming_filter_correct (input : CSVInput)
    (filterFunc : Transaction → Bool) (ts : List Transaction)
    (hheader : streamingValidateHeader input.header = .ok ())
    (hrows : decodeRows input.rows = .ok ts) :
    ParseWithFilter none input filterFunc = .ok (ts.filter filterFunc) := by
  unfold ParseWithFilter
  rw [hheader]
  simpa using parseLoop_ok filterFunc input.rows ts [] 0 hrows

theorem c1_streaming_filter_correct_witness :
    ParseWithFilter none
        ⟨["date", "amount", "content"],
          [["2025/01/05", "2000", "Salary"], ["2025/02/01", "100", "Gift"],
            ["2025/01/09", "-300", "Grocery"]]⟩
        (periodFilter 2025 1)
      = .ok [⟨⟨2025, 1, 5⟩, 2000, "Salary"⟩, ⟨⟨2025, 1, 9⟩, -300, "Grocery"⟩] := by
  have h := c1_streaming_filter_correct
    ⟨["date", "amount", "content"],
      [["2025/01/05", "2000", "Salary"], ["2025/02/01", "100", "Gift"],
        ["2025/01/09", "-300", "Grocery"]]⟩
    (periodFilter 2025 1)
    [⟨⟨2025, 1, 5⟩, 2000, "Salary"⟩, ⟨⟨2025, 2, 1⟩, 100, "Gift"⟩,
      ⟨⟨2025, 1, 9⟩, -300, "Grocery"⟩]
    (by decide) (by decide)
  rw [h]
  decide

/-- C4: a row that fails to decode aborts the whole parse: whenever the
rows are `pre ++ bad :: post` with every row of `pre` decodable and
`bad` failing, the parse returns the error of `bad` tagged with its
1-indexed line number, and no records — whatever `post` contains and
whatever the predicate matched before. -/
theorem c4_fail_fast (input : CSVInput) (filterFunc : Transaction → Bool)
    (pre : List (List String)) (bad : List String) (post : List (List String))
    (e : RecordError)
    (hrows : input.rows = pre ++ bad :: post)
    (hheader : streamingValidateHeader input.header = .ok ())
    (hpre : ∀ r ∈ pre, rowDecodes r = true)
    (hbad : streamingParseRecord bad = .error e) :
    ParseWithFilter none input filterFunc
      = .error (.rowError (pre.length + 2) e) := by
  unfold ParseWithFilter
  rw [hheader, hrows]
  simpa using parseLoop_err filterFunc pre bad post e [] 0 hpre hbad

theorem c4_fail_fast_witness :
    ParseWithFilter none
        ⟨["date", "amount", "content"],
          [["2025/01/05", "2000", "Salary"], ["2025/01/01", "1000"],
            ["2025/01/09", "-300", "Grocery"]]⟩
        (fun _ => true)
      = .error (.rowError 3 (.invalidColumnCount 2)) := by
  have h := c4_fail_fast
    ⟨["date", "amount", "content"],
      [["2025/01/05", "2000", "Salary"], ["2025/01/01", "1000"],
        ["2025/01/09", "-300", "Grocery"]]⟩
    (fun _ => true)
    [["2025/01/05", "2000", "Salary"]] ["2025/01/01", "1000"]
    [["2025/01/09", "-300", "Grocery"]]
    (.invalidColumnCount 2) (by decide) (by decide) (by decide) (by decide)
  simpa using h

/-- C6: cancellation is polled at the start of every row iteration
(including the one that would observe end of stream); if the context is
cancelled at any iteration `k` within the stream, the parse returns the
cancellation error and no records, however many prior rows were valid
and matched. -/
theorem c6_cancellation_discards (input : CSVInput)
    (filterFunc : Transaction → Bool) (k : Nat)
    (hheader : streamingValidateHeader input.header = .ok ())
    (hall : ∀ r ∈ input.rows, rowDecodes r = true)
    (hk : k ≤ input.rows.length) :
    ParseWithFilter (some k) input filterFunc = .error .cancelled := by
  unfold ParseWithFilter
  rw [hheader]
  exact parseLoop_cancel filterFunc k input.rows [] 0 hall (by simpa using hk)

theorem c6_cancellation_discards_witness :
    ParseWithFilter (some 2)
        ⟨["date", "amount", "content"],
          [["2025/01/05", "2000", "Salary"], ["2025/01/09", "-300", "Grocery"],
            ["2025/01/01", "100", "Gift"]]⟩
        (fun _ => true)
      = .error .cancelled :=
  c6_cancellation_discards
    ⟨["date", "amount", "content"],
      [["2025/01/05", "2000", "Salary"], ["2025/01/09", "-300", "Grocery"],
        ["2025/01/01", "100", "Gift"]]⟩
    (fun _ => true) 2 (by decide) (by decide) (by decide)

/-- C8: when every row decodes but none satisfies the predicate, the
parse succeeds with the empty record list — a success value, never equal
to any failure outcome. -/
theorem c8_empty_result_is_success (input : CSVInput)
    (filterFunc : Transaction → Bool) (ts : List Transaction)
    (hheader : streamingValidateHeader input.header = .ok ())
    (hrows : decodeRows input.rows = .ok ts)
    (hnone : ∀ t ∈ ts, filterFunc t = false) :
    ParseWithFilter none input filterFunc = .ok [] ∧
      ∀ e, ParseWithFilter none input filterFunc ≠ .error e := by
  have h : ParseWithFilter none input filterFunc = .ok (ts.filter filterFunc) := by
    unfold ParseWithFilter
    rw [hheader]
    simpa using parseLoop_ok filterFunc input.rows ts [] 0 hrows
  have hfil : ts.filter filterFunc = [] := by
    rw [List.filter_eq_nil_iff]
    intro t ht
    simp [hnone t ht]
  rw [hfil] at h
  exact ⟨h, fun e hcontra => by rw [h] at hcontra; exact Except.noConfusion hcontra⟩

theorem c8_empty_result_is_success_witness :
    ParseWithFilter none
        ⟨["date", "amount", "content"], [["2025/01/05", "2000", "Salary"]]⟩
        (periodFilter 2025 2)
      = .ok [] ∧
      ∀ e, ParseWithFilter none
        ⟨["date", "amount", "content"], [["2025/01/05", "2000", "Salary"]]⟩
        (periodFilter 2025 2) ≠ .error e :=
  c8_empty_result_is_success
    ⟨["date", "amount", "content"], [["2025/01/05", "2000", "Salary"]]⟩
    (periodFilter 2025 2) [⟨⟨2025, 1, 5⟩, 2000, "Salary"⟩]
    (by decide) (by decide) (by decide)

theorem trimRight_idem (l : List Char) : trimRight (trimRight l) = trimRight l := by
  induction l with
  | nil => rfl
  | cons c rest ih =>
    rw [trimRight]
    cases h : trimRight rest with
    | nil =>
      by_cases hc : isSpaceGo c
      · simp [hc, trimRight]
      · simp [hc, trimRight]
    | cons x xs =>
      rw [h] at ih
      rw [trimRight, ih]

theorem trimRight_head (c : Char) (l : List Char) :
    trimRight (c :: l) = [] ∨ ∃ l', trimRight (c :: l) = c :: l' := by
  rw [trimRight]
  cases h : trimRight l with
  | nil =>
    by_cases hc : isSpaceGo c
    · left; simp [hc]
    · right; exact ⟨[], by simp [hc]⟩
  | cons x xs => right; exact ⟨x :: xs, rfl⟩

theorem dropWhile_head_not (p : Char → Bool) (l : List Char) :
    l.dropWhile p = [] ∨ ∃ c l', l.dropWhile p = c :: l' ∧ p c = false := by
  induction l with
  | nil => left; rfl
  | cons c rest ih =>
    by_cases hc : p c
    · simpa [List.dropWhile_cons, hc] using ih
    · right
      exact ⟨c, rest, by simp [List.dropWhile_cons, hc], by simpa using hc⟩

theorem trimSpaceList_idem (l : List Char) :
    trimSpaceList (trimSpaceList l) = trimSpaceList l := by
  unfold trimSpaceList
  rcases dropWhile_head_not isSpaceGo l with h | ⟨c, l', h, hc⟩
  · rw [h]; rfl
  · rw [h]
    rcases trimRight_head c l' with h2 | ⟨l'', h2⟩
    · rw [h2]; rfl
    · rw [h2, List.dropWhile_cons, hc]
      simp only [Bool.false_eq_true, if_false]
      have h3 := trimRight_idem (c :: l')
      rw [h2] at h3
      exact h3

theorem trimSpace_idem (s : String) : trimSpace (trimSpace s) = trimSpace s := by
  unfold trimSpace
  exact congrArg String.mk (trimSpaceList_idem s.data)

theorem NewTransaction_ok (d : Date) (a : Int) (c : String) (t : Transaction)
    (h : NewTransaction d a c = .ok t) :
    t.Date = d ∧ t.Amount = a ∧ t.Content = trimSpace c ∧ t.Content ≠ "" := by
  simp only [NewTransaction] at h
  split_ifs at h with h1 h2
  simp only [Except.ok.injEq] at h
  subst h
  exact ⟨rfl, rfl, rfl, h2⟩

theorem streamingParseRecord_ok_content (r : List String) (t : Transaction)
    (h : streamingParseRecord r = .ok t) :
    trimSpace t.Content = t.Content ∧ t.Content ≠ "" := by
  unfold streamingParseRecord at h
  split at h
  case h_2 => exact absurd h (by simp)
  case h_1 rd ra rc =>
    dsimp only at h
    split_ifs at h with hemp
    split at h
    · exact absurd h (by simp)
    · split at h
      · exact absurd h (by simp)
      · split at h
        · exact absurd h (by simp)
        case _ heq =>
          simp only [Except.ok.injEq] at h
          subst h
          obtain ⟨-, -, hcontent, hne⟩ := NewTransaction_ok _ _ _ _ heq
          refine ⟨?_, hne⟩
          rw [hcontent, trimSpace_idem]

theorem insertDesc_perm (t : Transaction) (l : List Transaction) :
    (insertDesc t l).Perm (t :: l) := by
  induction l with
  | nil => exact List.Perm.refl _
  | cons u us ih =>
    rw [insertDesc]
    by_cases h : Date.after u.Date t.Date
    · simp only [h, if_true]
      exact (ih.cons u).trans (List.Perm.swap t u us)
    · simp [h]

theorem sortTransactionsDesc_perm (ts : List Transaction) :
    (sortTransactionsDesc ts).Perm ts := by
  induction ts with
  | nil => exact List.Perm.refl _
  | cons t ts ih =>
    rw [sortTransactionsDesc]
    exact (insertDesc_perm t (sortTransactionsDesc ts)).trans (ih.cons t)

theorem after_iff (a b : Date) : Date.after a b = true ↔ b.key < a.key := by
  simp [Date.after]

theorem before_iff (a b : Date) : Date.before a b = true ↔ a.key < b.key := by
  simp [Date.before]

theorem Date.key_inj {a b : Date} : a.key = b.key ↔ a = b := by
  cases a; cases b
  simp [Date.key, Date.mk.injEq]

theorem mem_insertDesc (t u : Transaction) (l : List Transaction) :
    u ∈ insertDesc t l ↔ u = t ∨ u ∈ l :=
  ⟨fun h => by simpa using (insertDesc_perm t l).mem_iff.mp h,
   fun h => (insertDesc_perm t l).mem_iff.mpr (by simpa using h)⟩

theorem insertDesc_sorted (t : Transaction) (l : List Transaction)
    (h : List.Pairwise (fun a b => b.Date.key ≤ a.Date.key) l) :
    List.Pairwise (fun a b => b.Date.key ≤ a.Date.key) (insertDesc t l) := by
  induction l with
  | nil => simp [insertDesc]
  | cons u us ih =>
    rw [insertDesc]
    rcases h with _ | ⟨hu, hus⟩
    by_cases hut : Date.after u.Date t.Date
    · simp only [hut, if_true]
      refine List.Pairwise.cons ?_ (ih hus)
      intro x hx
      rcases (mem_insertDesc t x us).mp hx with rfl | hxus
      · exact le_of_lt ((after_iff u.Date x.Date).mp hut)
      · exact hu x hxus
    · simp only [hut, if_false]
      have htu : u.Date.key ≤ t.Date.key := by
        rcases lt_or_ge u.Date.key t.Date.key with h1 | h1
        · exact le_of_lt h1
        · rcases lt_or_eq_of_le h1 with h2 | h2
          · exact absurd ((after_iff u.Date t.Date).mpr h2) hut
          · exact le_of_eq h2.symm
      refine List.Pairwise.cons ?_ (List.Pairwise.cons hu hus)
      intro x hx
      rcases List.mem_cons.mp hx with rfl | hxus
      · exact htu
      · exact le_trans (hu x hxus) htu

theorem sortTransactionsDesc_sorted (ts : List Transaction) :
    List.Pairwise (fun a b => b.Date.key ≤ a.Date.key) (sortTransactionsDesc ts) := by
  induction ts with
  | nil => simp [sortTransactionsDesc]
  | cons t ts ih => exact insertDesc_sorted t _ ih

theorem insertDesc_filter_date (t : Transaction) (l : List Transaction) (d : Date)
    (hsorted : List.Pairwise (fun a b => b.Date.key ≤ a.Date.key) l) :
    (insertDesc t l).filter (fun u => decide (u.Date = d))
      = (t :: l).filter (fun u => decide (u.Date = d)) := by
  induction l with
  | nil => rfl
  | cons u us ih =>
    rw [insertDesc]
    rcases hsorted with _ | ⟨hu, hus⟩
    by_cases hut : Date.after u.Date t.Date
    · simp only [hut, if_true]
      have hne : u.Date ≠ t.Date := by
        intro hcontra
        have := (after_iff u.Date t.Date).mp hut
        rw [hcontra] at this
        exact lt_irrefl _ this
      rw [List.filter_cons, ih hus]
      by_cases hud : u.Date = d
      · have htd : t.Date ≠ d := fun hcontra => hne (by rw [hud, hcontra])
        simp [List.filter_cons, hud, htd]
      · simp [List.filter_cons, hud]
    · simp [hut]

theorem sortTransactionsDesc_stable (ts : List Transaction) (d : Date) :
    (sortTransactionsDesc ts).filter (fun u => decide (u.Date = d))
      = ts.filter (fun u => decide (u.Date = d)) := by
  induction ts with
  | nil => rfl
  | cons t ts ih =>
    rw [sortTransactionsDesc,
      insertDesc_filter_date t _ d (sortTransactionsDesc_sorted ts),
      List.filter_cons, List.filter_cons, ih]

/-- C3: the services' newest-first sort is sorted by date descending,
keeps the relative input order of transactions with equal dates (the
subsequence at each fixed date is unchanged), and permutes the input. -/
theorem c3_sort_desc_stable (ts : List Transaction) :
    List.Pairwise (fun a b => b.Date.key ≤ a.Date.key) (sortTransactionsDesc ts) ∧
    (∀ d : Date, (sortTransactionsDesc ts).filter (fun u => decide (u.Date = d))
        = ts.filter (fun u => decide (u.Date = d))) ∧
    (sortTransactionsDesc ts).Perm ts :=
  ⟨sortTransactionsDesc_sorted ts, fun d => sortTransactionsDesc_stable ts d,
    sortTransactionsDesc_perm ts⟩

/-- C9: `NewTransaction` trims the content and rejects empty or
whitespace-only content even when called directly; every transaction it
returns has content that is non-empty and invariant under trimming;
every transaction emitted by the streaming parse satisfies the same
invariant; the sort only rearranges its input, so the invariant is
preserved through the pipeline. -/
theorem c9_content_invariant :
    (∀ (d : Date) (a : Int) (c : String) (t : Transaction),
        NewTransaction d a c = .ok t →
        t.Content = trimSpace c ∧ trimSpace t.Content = t.Content ∧ t.Content ≠ "") ∧
    (∀ (d : Date) (a : Int) (c : String),
        trimSpace c = "" → ∃ msg, NewTransaction d a c = .error msg) ∧
    (∀ (cancelAt : Option Nat) (input : CSVInput) (filterFunc : Transaction → Bool)
        (ts : List Transaction),
        ParseWithFilter cancelAt input filterFunc = .ok ts →
        ∀ t ∈ ts, trimSpace t.Content = t.Content ∧ t.Content ≠ "") ∧
    (∀ (ts : List Transaction) (t : Transaction),
        t ∈ sortTransactionsDesc ts → t ∈ ts) := by
  refine ⟨?_, ?_, ?_, ?_⟩
  · intro d a c t h
    obtain ⟨-, -, hcontent, hne⟩ := NewTransaction_ok d a c t h
    refine ⟨hcontent, ?_, hne⟩
    rw [hcontent, trimSpace_idem]
  · intro d a c h
    by_cases h1 : c = ""
    · exact ⟨"content cannot be empty", by simp [NewTransaction, h1]⟩
    · exact ⟨"content cannot be empty after trimming", by simp [NewTransaction, h1, h]⟩
  · intro cancelAt input filterFunc ts h t ht
    unfold ParseWithFilter at h
    cases hh : streamingValidateHeader input.header with
    | error e => rw [hh] at h; exact absurd h (by simp)
    | ok u =>
      rw [hh] at h
      rcases mem_parseLoop cancelAt filterFunc input.rows [] ts 0 h t ht with hacc | ⟨r, -, hr⟩
      · exact absurd hacc (List.not_mem_nil t)
      · exact streamingParseRecord_ok_content r t hr
  · intro ts t ht
    exact (sortTransactionsDesc_perm ts).mem_iff.mp ht

theorem c9_content_invariant_witness :
    (Transaction.mk ⟨2025, 1, 5⟩ 10 "Salary").Content = trimSpace "  Salary " ∧
    trimSpace (Transaction.mk ⟨2025, 1, 5⟩ 10 "Salary").Content
      = (Transaction.mk ⟨2025, 1, 5⟩ 10 "Salary").Content ∧
    (Transaction.mk ⟨2025, 1, 5⟩ 10 "Salary").Content ≠ "" :=
  c9_content_invariant.1 ⟨2025, 1, 5⟩ 10 "  Salary "
    ⟨⟨2025, 1, 5⟩, 10, "Salary"⟩ (by decide)

/-- C5 counterexample: a header with FOUR fields whose first three are
`date`, `amount`, `content` is accepted and the parse succeeds, so the
parse does not fail on every header that is not exactly the three
fields — the field-count check only rejects fewer than three. -/
theorem c5_counterexample :
    ParseWithFilter none ⟨["date", "amount", "content", "extra"], []⟩ (fun _ => true)
        = .ok [] ∧
      ["date", "amount", "content", "extra"].length ≠ 3 := by
  constructor
  · rfl
  · decide

/-- C5 (amended): the parse fails with the header's error before any data
row can influence the outcome unless the header has at least three
fields whose first three equal `date`, `amount`, `content` in order
(case-insensitively, whitespace-insensitively, after stripping a leading
byte-order mark from the first); fewer than three fields is rejected,
but extra fields beyond the third are accepted. -/
theorem c5_header_validation_amended :
    (∀ (header : List String) (rows rows' : List (List String))
        (cancelAt : Option Nat) (filterFunc : Transaction → Bool) (e : ParseError),
        streamingValidateHeader header = .error e →
        ParseWithFilter cancelAt ⟨header, rows⟩ filterFunc = .error e ∧
          ParseWithFilter cancelAt ⟨header, rows⟩ filterFunc
            = ParseWithFilter cancelAt ⟨header, rows'⟩ filterFunc) ∧
    (∀ header : List String, header.length < 3 →
        streamingValidateHeader header = .error (.headerTooFewColumns header.length)) ∧
    (∀ (a b c : String) (rest : List String),
        streamingValidateHeader (a :: b :: c :: rest) = .ok () ↔
          (streamingEq (trimPrefixBOM a) "date" && streamingEq b "amount" &&
            streamingEq c "content") = true) := by
  refine ⟨?_, ?_, ?_⟩
  · intro header rows rows' cancelAt filterFunc e he
    unfold ParseWithFilter
    rw [he]
    exact ⟨rfl, rfl⟩
  · intro header hlen
    rcases header with _ | ⟨a, _ | ⟨b, _ | ⟨c, rest⟩⟩⟩
    · rfl
    · rfl
    · rfl
    · simp at hlen; omega
  · intro a b c rest
    unfold streamingValidateHeader
    by_cases hcond : (streamingEq (trimPrefixBOM a) "date" && streamingEq b "amount" &&
        streamingEq c "content") = true
    · simp [hcond]
    · simp only [Bool.not_eq_true] at hcond
      simp [hcond]

theorem c5_header_validation_amended_witness :
    ParseWithFilter none ⟨["date", "amount"], [["2025/01/05", "1", "x"]]⟩ (fun _ => true)
      = .error (.headerTooFewColumns 2) := by
  have h2 := c5_header_validation_amended.2.1 ["date", "amount"] (by decide)
  exact (c5_header_validation_amended.1 ["date", "amount"] [["2025/01/05", "1", "x"]] []
    none (fun _ => true) (.headerTooFewColumns 2) h2).1

/-- C7: the date-range predicate keeps a transaction exactly when
`start <= date <= end` in the day-granularity order, is inclusive at
both endpoints, agrees with the spec-modelled `util.Between`, and
matches nothing (rather than erring) when `start > end`. -/
theorem c7_date_range_inclusive (t : Transaction) (startDate endDate : Date) :
    (dateRangeKeep t startDate endDate = true ↔
      startDate.key ≤ t.Date.key ∧ t.Date.key ≤ endDate.key) ∧
    Between t.Date startDate endDate = dateRangeKeep t startDate endDate ∧
    (endDate.key < startDate.key → dateRangeKeep t startDate endDate = false) := by
  have hiff : dateRangeKeep t startDate endDate = true ↔
      startDate.key ≤ t.Date.key ∧ t.Date.key ≤ endDate.key := by
    unfold dateRangeKeep
    simp only [Bool.and_eq_true, Bool.or_eq_true, decide_eq_true_eq, after_iff, before_iff]
    constructor
    · rintro ⟨h1 | h1, h2 | h2⟩ <;>
        refine ⟨?_, ?_⟩ <;>
        first
          | exact le_of_lt (by assumption)
          | exact le_of_eq (Date.key_inj.mpr h1).symm
          | exact le_of_eq (Date.key_inj.mpr h2)
    · rintro ⟨h1, h2⟩
      constructor
      · rcases lt_or_eq_of_le h1 with h | h
        · exact Or.inr h
        · exact Or.inl (Date.key_inj.mp h.symm)
      · rcases lt_or_eq_of_le h2 with h | h
        · exact Or.inr h
        · exact Or.inl (Date.key_inj.mp h)
  refine ⟨hiff, ?_, ?_⟩
  · have hbet : Between t.Date startDate endDate = true ↔
        startDate.key ≤ t.Date.key ∧ t.Date.key ≤ endDate.key := by
      simp [Between]
    rw [Bool.eq_iff_iff, hbet, hiff]
  · intro hlt
    cases hkeep : dateRangeKeep t startDate endDate with
    | false => rfl
    | true =>
      obtain ⟨h1, h2⟩ := hiff.mp hkeep
      exact absurd (le_trans h1 h2) (not_le.mpr hlt)

theorem c7_date_range_inclusive_witness :
    dateRangeKeep ⟨⟨2025, 1, 15⟩, 5, "x"⟩ ⟨2025, 1, 15⟩ ⟨2025, 2, 15⟩ = true ∧
    dateRangeKeep ⟨⟨2025, 2, 15⟩, 5, "x"⟩ ⟨2025, 1, 15⟩ ⟨2025, 2, 15⟩ = true ∧
    dateRangeKeep ⟨⟨2025, 2, 10⟩, 5, "x"⟩ ⟨2025, 2, 15⟩ ⟨2025, 1, 15⟩ = false := by
  refine ⟨?_, ?_, ?_⟩
  · exact (c7_date_range_inclusive ⟨⟨2025, 1, 15⟩, 5, "x"⟩ ⟨2025, 1, 15⟩
      ⟨2025, 2, 15⟩).1.mpr ⟨by decide, by decide⟩
  · exact (c7_date_range_inclusive ⟨⟨2025, 2, 15⟩, 5, "x"⟩ ⟨2025, 1, 15⟩
      ⟨2025, 2, 15⟩).1.mpr ⟨by decide, by decide⟩
  · exact (c7_date_range_inclusive ⟨⟨2025, 2, 10⟩, 5, "x"⟩ ⟨2025, 2, 15⟩
      ⟨2025, 1, 15⟩).2.2 (by decide)

/-- C10: at the optimized service boundary every streaming-parse failure
— cancellation included — is wrapped into a Parse-kind `DomainError`
with message `failed to parse CSV` (so the kind cannot distinguish a
cancelled run from a malformed-input run), while source-open failures
are wrapped as IO-kind errors. -/
theorem c10_error_wrapping :
    (∀ (cancelAt : Option Nat) (input : CSVInput) (year month : Int) (e : ParseError),
        ValidatePeriod year month = .ok () →
        ParseWithPeriodFilter cancelAt input year month = .error e →
        GetTransactionsByPeriodOptimized cancelAt (.ok input) year month
            = .error (NewParseError "failed to parse CSV" e) ∧
          (NewParseError "failed to parse CSV" e).Type' = .parse) ∧
    (∀ (cancelAt : Option Nat) (year month : Int) (s : String),
        ValidatePeriod year month = .ok () →
        GetTransactionsByPeriodOptimized cancelAt (.error s) year month
            = .error (NewIOError "failed to open CSV source" s) ∧
          (NewIOError "failed to open CSV source" s).Type' = .io) ∧
    (∀ e e' : ParseError,
        (NewParseError "failed to parse CSV" e).Type'
            = (NewParseError "failed to parse CSV" e').Type' ∧
          (NewParseError "failed to parse CSV" e).Message
            = (NewParseError "failed to parse CSV" e').Message) := by
  refine ⟨?_, ?_, ?_⟩
  · intro cancelAt input year month e hval hparse
    refine ⟨?_, rfl⟩
    simp [GetTransactionsByPeriodOptimized, hval, hparse]
  · intro cancelAt year month s hval
    refine ⟨?_, rfl⟩
    simp [GetTransactionsByPeriodOptimized, hval]
  · intro e e'
    exact ⟨rfl, rfl⟩

theorem c10_error_wrapping_witness :
    GetTransactionsByPeriodOptimized (some 0)
        (.ok ⟨["date", "amount", "content"], [["2025/01/05", "2000", "Salary"]]⟩) 2025 1
      = .error (NewParseError "failed to parse CSV" .cancelled) ∧
    GetTransactionsByPeriodOptimized none (.error "open failed") 2025 1
      = .error (NewIOError "failed to open CSV source" "open failed") := by
  constructor
  · exact (c10_error_wrapping.1 (some 0)
      ⟨["date", "amount", "content"], [["2025/01/05", "2000", "Salary"]]⟩ 2025 1
      .cancelled (by decide) (by decide)).1
  · exact (c10_error_wrapping.2.1 none 2025 1 "open failed" (by decide)).1

theorem wrap64_eq_self {x : Int} (h1 : -(2 ^ 63) ≤ x) (h2 : x ≤ 2 ^ 63 - 1) :
    wrap64 x = x := by
  unfold wrap64
  have e1 : ((2 : Int) ^ 63) = 9223372036854775808 := by norm_num
  have e2 : ((2 : Int) ^ 64) = 18446744073709551616 := by norm_num
  rw [e1] at h1 h2 ⊢
  rw [e2]
  omega

theorem sumPos_nonneg (ts : List Transaction) : 0 ≤ sumPos ts := by
  unfold sumPos
  apply List.sum_nonneg
  intro x hx
  simp only [List.mem_map, List.mem_filter, decide_eq_true_eq] at hx
  obtain ⟨t, ⟨-, hpos⟩, rfl⟩ := hx
  exact le_of_lt hpos

theorem sumPos_cons (t : Transaction) (ts : List Transaction) :
    sumPos (t :: ts) = (if 0 < t.Amount then t.Amount else 0) + sumPos ts := by
  unfold sumPos
  rw [List.filter_cons]
  by_cases h : 0 < t.Amount <;> simp [h]

theorem sumNeg_cons (t : Transaction) (ts : List Transaction) :
    sumNeg (t :: ts) = (if t.Amount < 0 then t.Amount else 0) + sumNeg ts := by
  unfold sumNeg
  rw [List.filter_cons]
  by_cases h : t.Amount < 0 <;> simp [h]

theorem sumNeg_nonpos (ts : List Transaction) : sumNeg ts ≤ 0 := by
  induction ts with
  | nil => simp [sumNeg]
  | cons t ts ih =>
    rw [sumNeg_cons]
    by_cases h : t.Amount < 0
    · rw [if_pos h]; omega
    · rw [if_neg h]; omega

theorem calcTotalsLoop_exact :
    ∀ (ts : List Transaction) (inc exp : Int),
      -(2 ^ 63) ≤ inc → inc + sumPos ts ≤ 2 ^ 63 - 1 →
      exp ≤ 2 ^ 63 - 1 → -(2 ^ 63) ≤ exp + sumNeg ts →
      calcTotalsLoop ts inc exp = (inc + sumPos ts, exp + sumNeg ts) := by
  intro ts
  induction ts with
  | nil =>
    intro inc exp _ _ _ _
    simp [calcTotalsLoop, sumPos, sumNeg]
  | cons t ts ih =>
    intro inc exp h1 h2 h3 h4
    have hps := sumPos_nonneg ts
    have hns := sumNeg_nonpos ts
    rw [calcTotalsLoop]
    rcases lt_trichotomy t.Amount 0 with hneg | hzero | hpos
    · have hsp : sumPos (t :: ts) = sumPos ts := by
        rw [sumPos_cons, if_neg (by omega), zero_add]
      have hsn : sumNeg (t :: ts) = t.Amount + sumNeg ts := by
        rw [sumNeg_cons, if_pos hneg]
      rw [hsp] at h2
      rw [hsn] at h4
      have hni : Transaction.IsIncome t = false := by
        simp [Transaction.IsIncome]; omega
      have hie : Transaction.IsExpense t = true := by
        simp [Transaction.IsExpense, hneg]
      rw [hni, hie]
      simp only [Bool.false_eq_true, if_false, if_true]
      have hw : wrap64 (exp + t.Amount) = exp + t.Amount :=
        wrap64_eq_self (by omega) (by omega)
      rw [hw, ih inc (exp + t.Amount) h1 (by omega) (by omega) (by omega), hsp, hsn]
      simp only [Prod.mk.injEq]
      constructor <;> ring_nf
    · have hsp : sumPos (t :: ts) = sumPos ts := by
        rw [sumPos_cons, if_neg (by omega), zero_add]
      have hsn : sumNeg (t :: ts) = sumNeg ts := by
        rw [sumNeg_cons, if_neg (by omega), zero_add]
      rw [hsp] at h2
      rw [hsn] at h4
      have hni : Transaction.IsIncome t = false := by
        simp [Transaction.IsIncome, hzero]
      have hie : Transaction.IsExpense t = false := by
        simp [Transaction.IsExpense, hzero]
      rw [hni, hie]
      simp only [Bool.false_eq_true, if_false]
      rw [ih inc exp h1 h2 h3 h4, hsp, hsn]
    · have hsp : sumPos (t :: ts) = t.Amount + sumPos ts := by
        rw [sumPos_cons, if_pos hpos]
      have hsn : sumNeg (t :: ts) = sumNeg ts := by
        rw [sumNeg_cons, if_neg (by omega), zero_add]
      rw [hsp] at h2
      rw [hsn] at h4
      have hni : Transaction.IsIncome t = true := by
        simp [Transaction.IsIncome, hpos]
      rw [hni]
      simp only [if_true]
      have hw : wrap64 (inc + t.Amount) = inc + t.Amount :=
        wrap64_eq_self (by omega) (by omega)
      rw [hw, ih (inc + t.Amount) exp (by omega) (by omega) h3 h4, hsp, hsn]
      simp only [Prod.mk.injEq]
      constructor <;> ring_nf

theorem calcTotalsLoop_skip_zero (t : Transaction) (ht : t.Amount = 0) :
    ∀ (l r : List Transaction) (inc exp : Int),
      calcTotalsLoop (l ++ t :: r) inc exp = calcTotalsLoop (l ++ r) inc exp := by
  intro l
  induction l with
  | nil =>
    intro r inc exp
    rw [List.nil_append, List.nil_append, calcTotalsLoop]
    have hni : Transaction.IsIncome t = false := by simp [Transaction.IsIncome, ht]
    have hie : Transaction.IsExpense t = false := by simp [Transaction.IsExpense, ht]
    rw [hni, hie]
    simp
  | cons u l ih =>
    intro r inc exp
    rw [List.cons_append, List.cons_append, calcTotalsLoop, calcTotalsLoop]
    by_cases hu : Transaction.IsIncome u = true
    · simp only [hu, if_true]
      exact ih r _ _
    · simp only [Bool.not_eq_true] at hu
      simp only [hu, Bool.false_eq_true, if_false]
      by_cases he : Transaction.IsExpense u = true
      · simp only [he, if_true]
        exact ih r _ _
      · simp only [Bool.not_eq_true] at he
        simp only [he, Bool.false_eq_true, if_false]
        exact ih r _ _

theorem filterForMonthLoop_list (year month : Int) :
    ∀ (ts : List Transaction) (inc exp : Int),
      (filterForMonthLoop year month ts inc exp).1
        = ts.filter (fun t => decide (t.Date.year = year ∧ t.Date.month = month)) := by
  intro ts
  induction ts with
  | nil => intro inc exp; rfl
  | cons t ts ih =>
    intro inc exp
    rw [filterForMonthLoop, List.filter_cons]
    by_cases hp : t.Date.year = year ∧ t.Date.month = month
    · simp only [hp, if_true, decide_eq_true_eq]
      by_cases ha : 0 < t.Amount
      · simp [ha, ih]
      · simp [ha, ih]
    · simp only [hp, if_false, decide_eq_true_eq]
      simp [hp, ih]

theorem filterForMonthLoop_exact (year month : Int) :
    ∀ (ts : List Transaction) (inc exp : Int),
      -(2 ^ 63) ≤ inc →
      inc + sumPos (ts.filter (fun t => decide (t.Date.year = year ∧ t.Date.month = month)))
        ≤ 2 ^ 63 - 1 →
      exp ≤ 2 ^ 63 - 1 →
      -(2 ^ 63) ≤
        exp + sumNeg (ts.filter (fun t => decide (t.Date.year = year ∧ t.Date.month = month))) →
      filterForMonthLoop year month ts inc exp
        = (ts.filter (fun t => decide (t.Date.year = year ∧ t.Date.month = month)),
            inc + sumPos (ts.filter (fun t => decide (t.Date.year = year ∧ t.Date.month = month))),
            exp + sumNeg (ts.filter (fun t => decide (t.Date.year = year ∧ t.Date.month = month)))) := by
  intro ts
  induction ts with
  | nil =>
    intro inc exp _ _ _ _
    simp [filterForMonthLoop, sumPos, sumNeg]
  | cons t ts ih =>
    intro inc exp h1 h2 h3 h4
    have hps := sumPos_nonneg
      (ts.filter (fun t => decide (t.Date.year = year ∧ t.Date.month = month)))
    have hns := sumNeg_nonpos
      (ts.filter (fun t => decide (t.Date.year = year ∧ t.Date.month = month)))
    rw [filterForMonthLoop]
    by_cases hp : t.Date.year = year ∧ t.Date.month = month
    · have hf : (List.filter (fun t => decide (t.Date.year = year ∧ t.Date.month = month))
          (t :: ts))
          = t :: (ts.filter (fun t => decide (t.Date.year = year ∧ t.Date.month = month))) := by
        simp [List.filter_cons, hp]
      rw [hf] at h2 h4 ⊢
      rw [sumPos_cons] at h2
      rw [sumNeg_cons] at h4
      rw [if_pos hp]
      by_cases ha : 0 < t.Amount
      · rw [if_pos ha] at h2
        rw [if_neg (by omega), zero_add] at h4
        rw [if_pos ha]
        dsimp only
        have hw : wrap64 (inc + t.Amount) = inc + t.Amount :=
          wrap64_eq_self (by omega) (by omega)
        rw [hw, ih (inc + t.Amount) exp (by omega) (by omega) h3 h4]
        rw [sumPos_cons, sumNeg_cons, if_pos ha, if_neg (by omega)]
        simp only [Prod.mk.injEq]
        refine ⟨trivial, by ring_nf, by ring_nf⟩
      · rw [if_neg ha, zero_add] at h2
        rw [if_neg ha]
        dsimp only
        by_cases haz : t.Amount < 0
        · rw [if_pos haz] at h4
          have hw : wrap64 (exp + t.Amount) = exp + t.Amount :=
            wrap64_eq_self (by omega) (by omega)
          rw [hw, ih inc (exp + t.Amount) h1 h2 (by omega) (by omega)]
          rw [sumPos_cons, sumNeg_cons, if_neg ha, if_pos haz]
          simp only [Prod.mk.injEq]
          refine ⟨trivial, by ring_nf, by ring_nf⟩
        · rw [if_neg haz, zero_add] at h4
          have hw : wrap64 (exp + t.Amount) = exp + t.Amount :=
            wrap64_eq_self (by omega) (by omega)
          have haz0 : t.Amount = 0 := by omega
          rw [hw, ih inc (exp + t.Amount) h1 h2 (by omega) (by omega)]
          rw [sumPos_cons, sumNeg_cons, if_neg ha, if_neg haz]
          simp only [Prod.mk.injEq]
          refine ⟨trivial, by ring_nf, by simp [haz0]⟩
    · have hf : (List.filter (fun t => decide (t.Date.year = year ∧ t.Date.month = month))
          (t :: ts))
          = ts.filter (fun t => decide (t.Date.year = year ∧ t.Date.month = month)) := by
        simp [List.filter_cons, hp]
      rw [hf] at h2 h4 ⊢
      rw [if_neg hp]
      exact ih inc exp h1 h2 h3 h4

/-- C2 counterexample: `CalculateTotalsOptimized` adds Go `int64`
values, which wrap: two income transactions of the maximum `int64`
amount (both producible by parsing `9223372036854775807`) yield a total
income of `-2`, not the sum `2 ^ 64 - 2` of the positive amounts. -/
theorem c2_counterexample :
    CalculateTotalsOptimized
        [⟨⟨2025, 1, 1⟩, 2 ^ 63 - 1, "a"⟩, ⟨⟨2025, 1, 2⟩, 2 ^ 63 - 1, "b"⟩]
      = (-2, 0) ∧
    sumPos [⟨⟨2025, 1, 1⟩, 2 ^ 63 - 1, "a"⟩, ⟨⟨2025, 1, 2⟩, 2 ^ 63 - 1, "b"⟩]
      = 2 ^ 64 - 2 ∧
    ((-2 : Int) ≠ 2 ^ 64 - 2) := by
  refine ⟨by decide, by decide, by decide⟩

/-- C2 (amended): whenever the exact sums fit in `int64` — always the
case except at astronomic magnitudes — `CalculateTotalsOptimized`
returns exactly (sum of the strictly positive amounts, sum of the
strictly negative amounts); without that proviso the sums are reduced by
two's-complement wraparound. A zero-amount transaction never changes
either total, the empty list yields `(0, 0)`, and `filterForMonth`
computes the same totals (its `else` branch adds zero amounts to
expenditure, which cannot change it) over the month-filtered list, which
it returns in file order. -/
theorem c2_totals_amended :
    (∀ ts : List Transaction,
        sumPos ts ≤ 2 ^ 63 - 1 → -(2 ^ 63) ≤ sumNeg ts →
        CalculateTotalsOptimized ts = (sumPos ts, sumNeg ts)) ∧
    CalculateTotalsOptimized [] = (0, 0) ∧
    (∀ (l r : List Transaction) (t : Transaction), t.Amount = 0 →
        CalculateTotalsOptimized (l ++ t :: r) = CalculateTotalsOptimized (l ++ r)) ∧
    (∀ (ts : List Transaction) (year month : Int),
        (filterForMonth ts year month).1
            = ts.filter (fun t => decide (t.Date.year = year ∧ t.Date.month = month)) ∧
        (sumPos ((filterForMonth ts year month).1) ≤ 2 ^ 63 - 1 →
          -(2 ^ 63) ≤ sumNeg ((filterForMonth ts year month).1) →
          (filterForMonth ts year month).2
            = (sumPos ((filterForMonth ts year month).1),
                sumNeg ((filterForMonth ts year month).1)))) := by
  refine ⟨?_, rfl, ?_, ?_⟩
  · intro ts hpos hneg
    unfold CalculateTotalsOptimized
    rw [calcTotalsLoop_exact ts 0 0 (by norm_num) (by omega) (by norm_num) (by omega)]
    simp
  · intro l r t ht
    unfold CalculateTotalsOptimized
    exact calcTotalsLoop_skip_zero t ht l r 0 0
  · intro ts year month
    constructor
    · exact filterForMonthLoop_list year month ts 0 0
    · intro hpos hneg
      unfold filterForMonth at hpos hneg ⊢
      rw [filterForMonthLoop_list year month ts 0 0] at hpos hneg
      rw [filterForMonthLoop_exact year month ts 0 0 (by norm_num) (by omega)
        (by norm_num) (by omega)]
      simp

theorem c2_totals_amended_witness :
    CalculateTotalsOptimized
        [⟨⟨2025, 1, 5⟩, 2000, "Salary"⟩, ⟨⟨2025, 1, 9⟩, -300, "Grocery"⟩,
          ⟨⟨2025, 1, 15⟩, 0, "Zero"⟩, ⟨⟨2025, 1, 20⟩, -150, "Transport"⟩]
      = (2000, -450) := by
  have h := c2_totals_amended.1
    [⟨⟨2025, 1, 5⟩, 2000, "Salary"⟩, ⟨⟨2025, 1, 9⟩, -300, "Grocery"⟩,
      ⟨⟨2025, 1, 15⟩, 0, "Zero"⟩, ⟨⟨2025, 1, 20⟩, -150, "Transport"⟩]
    (by decide) (by decide)
  rw [h]
  decide

end MfStatement
